import Mathlib

/-!
Verification of the scheduling core of a qiskit-terra fork.

Shallow embedding of the scheduling passes of the repository:

* `qiskit/transpiler/instruction_durations.py` (`InstructionDurations`)
* `qiskit/transpiler/passes/scheduling/asap.py` (`ASAPSchedule`)
* `qiskit/transpiler/passes/scheduling/asaptimestep.py` (`ASAPTimestepSchedule`)
* `qiskit/transpiler/passes/scheduling/timestepsasap.py` (`TimestepsASAPSchedule`)
* `qiskit/transpiler/passes/scheduling/alaptimestep.py` (`ALAPTimestepSchedule`)
* `qiskit/transpiler/passes/scheduling/timestepsalap.py` (`TimestepsALAPSchedule`)
* `qiskit/compiler/sequence.py` (`sequence` / `_sequence`)
* `qiskit/circuit/delay.py`, `qiskit/circuit/timestep.py` (instruction kinds)

Python `int` values are modelled as `Int` (they may go negative through the
delay-splitting arithmetic), Python exceptions as an explicit error type,
Python `dict` / `defaultdict(int)` as insertion-ordered association lists.
The `DAGCircuit` provider (topological iteration, leading-node computation,
mirroring) is not under `src/` and is modelled from the spec where noted.
-/

set_option autoImplicit false

namespace QiskitSched

/-- Python exceptions raised by the embedded code.  `transpilerErr` carries the
message of a `TranspilerError`; `keyErr` models a `KeyError` on a
`(name, qubits)` dictionary key (the raised error names both fields);
`valueErr` models `ValueError` (`max()` of an empty sequence); `bugInScheduler`
models `Exception("Bug in scheduling pass.")`; `assertionErr` an
`AssertionError`; `indexErr` an `IndexError`. -/
inductive PyErr where
  | transpilerErr (msg : String)
  | keyErr (name : String) (qubits : List Nat)
  | valueErr (msg : String)
  | bugInScheduler
  | assertionErr
  | indexErr
  deriving DecidableEq, Repr

/-- A Python attribute that normally holds an integer tick count but is
dynamically typed: `pynone` is `None`, `ticks n` an `int`, and `text s` a
`str` (the value actually stored by the ALAP timestep passes, which assign
`new_dag.duration = tmp_dag.name`). -/
inductive DagDuration where
  | pynone
  | ticks (n : Int)
  | text (s : String)
  deriving DecidableEq, Repr

/-- Instruction kind, standing in for Python `isinstance` checks against
`Delay` / `Timestep`. -/
inductive OpKind where
  | gate
  | delay
  | timestep
  deriving DecidableEq, Repr

/-- An instruction (`qiskit.circuit.instruction.Instruction`): a name, a kind
tag, a `duration` attribute and a `params` list.  `Delay.__init__` stores
`params=[duration], duration=duration`; `Timestep.__init__` stores
`params=[length], duration=0`. -/
structure Op where
  kind : OpKind
  name : String
  duration : Int
  params : List Int
  deriving DecidableEq, Repr

/-- `Delay(1, d)` from `qiskit/circuit/delay.py`. -/
def mkDelay (d : Int) : Op := ⟨OpKind.delay, "delay", d, [d]⟩

/-- `Timestep(num_qubits, length)` from `qiskit/circuit/timestep.py`:
`duration` is 0 and the length is stored in `params`. -/
def mkTimestep (length : Int) : Op := ⟨OpKind.timestep, "timestep", 0, [length]⟩

/-- An ordinary gate instruction with a resolved duration. -/
def mkGate (name : String) (d : Int) : Op := ⟨OpKind.gate, name, d, []⟩

/-- Assignment `op.duration = d`.  For a `Delay` the property setter also
rewrites `params` to `[d]` (`delay.py` lines 44-47); for other instructions
only the `_duration` attribute changes. -/
def Op.setDuration (op : Op) (d : Int) : Op :=
  match op.kind with
  | OpKind.delay => ⟨OpKind.delay, op.name, d, [d]⟩
  | _ => { op with duration := d }

/-- The length stored by a `Timestep` marker (`params[0]`). -/
def Op.tsLength (op : Op) : Int := op.params.headD 0

/-- A node of the residual dependency graph: the identity `id` stands for the
Python object identity used by `remove_op_node`. -/
structure RNode where
  id : Nat
  op : Op
  qargs : List Nat
  deriving DecidableEq, Repr

/-- Modelled from the spec: the Program/DAG provider (spec section 6).  A
program is a list of operations in program order (a topological order of the
wire-induced dependency DAG: two operations touching the same resource keep
their relative program order), together with the quantum registers
(`(name, size)` pairs), a circuit name and a `duration` attribute.  Qubits
are the indices `0, ..., num_qubits - 1` of the single physical register. -/
structure DAGCircuit where
  qregs : List (String × Nat)
  name : String
  duration : DagDuration
  ops : List (Op × List Nat)
  deriving DecidableEq, Repr

/-- Total number of qubits of the registers. -/
def DAGCircuit.numQubits (dag : DAGCircuit) : Nat :=
  (dag.qregs.map (fun r => r.2)).foldl (fun a b => a + b) 0

/-- Modelled from the spec: `DAGCircuit.mirror` — "reverses a program in
time" (spec section 4.3: reverse edges and reverse each resource's operation
order).  On a program-order operation list this is list reversal; registers,
name and the duration attribute are carried over.  The implementation is not
under `src/`. -/
def DAGCircuit.mirror (dag : DAGCircuit) : DAGCircuit :=
  { dag with ops := dag.ops.reverse }

/-- The physical-circuit precondition shared by all passes:
`len(dag.qregs) == 1 and dag.qregs.get('q') is not None`. -/
def DAGCircuit.isPhysical (dag : DAGCircuit) : Bool :=
  dag.qregs.length == 1 && dag.qregs.any (fun r => r.1 == "q")

/-! ## Insertion-ordered integer tables

`defaultdict(int)` and plain `dict` values keyed by qubit index, keeping
Python's insertion order (needed because `qubit_time_available.keys()` is
iterated). -/

/-- An insertion-ordered `qubit -> int` table. -/
abbrev TimeTable := List (Nat × Int)

/-- First-match lookup. -/
def ttFind : TimeTable → Nat → Option Int
  | [], _ => none
  | (k, v) :: t, q => if k = q then some v else ttFind t q

/-- Lookup with the `defaultdict(int)` default. -/
def tlook (t : TimeTable) (q : Nat) : Int := (ttFind t q).getD 0

/-- Reading `d[q]` from a `defaultdict(int)`: returns the value and the table
(with the key inserted at the end when it was missing). -/
def ttGet (t : TimeTable) (q : Nat) : Int × TimeTable :=
  match ttFind t q with
  | some v => (v, t)
  | none => (0, t ++ [(q, 0)])

/-- Writing `d[q] = v`: replaces the stored value, or appends the key. -/
def ttSet (t : TimeTable) (q : Nat) (v : Int) : TimeTable :=
  match t with
  | [] => [(q, v)]
  | (k, w) :: rest => if k = q then (k, v) :: rest else (k, w) :: ttSet rest q v

/-- `max(l)` over a list of Python ints: `ValueError` when empty. -/
def listMax? : List Int → Option Int
  | [] => none
  | x :: xs =>
    some
      (match listMax? xs with
       | none => x
       | some m => max x m)

/-- `min(l)` over a list of Python ints. -/
def listMin? : List Int → Option Int
  | [] => none
  | x :: xs =>
    some
      (match listMin? xs with
       | none => x
       | some m => min x m)

/-! ## `qiskit/transpiler/instruction_durations.py` -/

/-- `InstructionDurations`: `duration_dic` maps `(name, tuple(qubits))` to a
tick count; `dt` is the optional time quantum. -/
structure InstructionDurations where
  durationDic : List ((String × List Nat) × Int)
  dt : Option Int
  deriving DecidableEq, Repr

/-- Dictionary lookup used by `InstructionDurations.get`. -/
def dicFind : List ((String × List Nat) × Int) → String → List Nat → Option Int
  | [], _, _ => none
  | (k, v) :: t, name, qubits =>
    if k.1 = name ∧ k.2 = qubits then some v else dicFind t name qubits

/-- `InstructionDurations.get` (lines 76-80): synchronization-only operations
`barrier` and `timestep` resolve to 0; otherwise the dictionary access
`self.duration_dic[(name, tuple(qubits))]` raises `KeyError` on a missing
key, and the raised `KeyError` carries the `(name, qubits)` key. -/
def InstructionDurations.get (d : InstructionDurations) (name : String)
    (qubits : List Nat) : Except PyErr Int :=
  if name = "barrier" ∨ name = "timestep" then Except.ok 0
  else
    match dicFind d.durationDic name qubits with
    | some v => Except.ok v
    | none => Except.error (PyErr.keyErr name qubits)

/-! ## `qiskit/transpiler/passes/scheduling/asap.py` (`ASAPSchedule`) -/

/-- Scheduler state of `ASAPSchedule.run`: the instructions emitted so far
into `new_dag` and the `qubit_time_available` default-dict. -/
structure AsapState where
  newOps : List (Op × List Nat)
  timeAvail : TimeTable
  deriving DecidableEq, Repr

/-- Evaluation of the generator `(qubit_time_available[q] for q in qubits)`:
the values in order, threading the `defaultdict` key insertions. -/
def readAvail : List Nat → TimeTable → List Int × TimeTable
  | [], t => ([], t)
  | q :: qs, t =>
    let g := ttGet t q
    let rest := readAvail qs g.2
    (g.1 :: rest.1, rest.2)

/-- The loop `for q in qubits: qubit_time_available[q] = stop`. -/
def advanceAll : List Nat → Int → TimeTable → TimeTable
  | [], _, t => t
  | q :: qs, stop, t => advanceAll qs stop (ttSet t q stop)

/-- `pad_with_delays(qubits, until)` (asap.py lines 100-105): for each qubit
behind `until`, append a `Delay` covering the idle span.  The timeline is not
advanced; reading `qubit_time_available[q]` inserts missing keys. -/
def padWithDelays (qubits : List Nat) (untl : Int) (st : AsapState) : AsapState :=
  match qubits with
  | [] => st
  | q :: qs =>
    let g := ttGet st.timeAvail q
    if g.1 < untl then
      padWithDelays qs untl
        { newOps := st.newOps ++ [(mkDelay (untl - g.1), [q])], timeAvail := g.2 }
    else padWithDelays qs untl { st with timeAvail := g.2 }

/-- One iteration of the main loop of `ASAPSchedule.run` (lines 107-118) for
a node `(op, qargs)`: `start_time = max(qubit_time_available[q] ...)`
(a `ValueError` when `qargs` is empty), pad lagging qubits, resolve the
duration via the `DurationMapper` (abstracted as `resolve`), store it on the
operation, append the operation and advance every touched qubit to
`start_time + duration`. -/
def asapStep (resolve : Op → List Nat → Int) (st : AsapState) (node : Op × List Nat) :
    Except PyErr AsapState :=
  let read := readAvail node.2 st.timeAvail
  match listMax? read.1 with
  | none => Except.error (PyErr.valueErr "max() arg is an empty sequence")
  | some start =>
    let st1 := padWithDelays node.2 start { st with timeAvail := read.2 }
    let d := resolve node.1 node.2
    let op := node.1.setDuration d
    let st2 : AsapState := { st1 with newOps := st1.newOps ++ [(op, node.2)] }
    Except.ok { st2 with timeAvail := advanceAll node.2 (start + d) st2.timeAvail }

/-- `ASAPSchedule.run` (asap.py lines 77-126).  `resolve` abstracts
`DurationMapper.get`.  After the topological sweep, `working_qubits` is the
key set of `qubit_time_available` (only qubits touched by some access — the
source carries a `FIXME: must include idle qubits?`), the circuit duration is
`max` over those keys (a `ValueError` on an operation-free circuit), and the
working qubits are padded up to it. -/
def ASAPSchedule.run (resolve : Op → List Nat → Int) (dag : DAGCircuit) :
    Except PyErr DAGCircuit :=
  if ¬ dag.isPhysical then
    Except.error (PyErr.transpilerErr "ASAP schedule runs on physical circuits only")
  else
    match dag.ops.foldlM (asapStep resolve) ⟨[], []⟩ with
    | Except.error e => Except.error e
    | Except.ok st =>
      match listMax? (st.timeAvail.map (fun p => p.2)) with
      | none => Except.error (PyErr.valueErr "max() arg is an empty sequence")
      | some circuitDuration =>
        let final := padWithDelays (st.timeAvail.map (fun p => p.1)) circuitDuration st
        Except.ok
          { qregs := dag.qregs
            name := dag.name ++ "_asap"
            duration := DagDuration.ticks circuitDuration
            ops := final.newOps }

/-! ## Quantized timestep schedulers

`asaptimestep.py` (`ASAPTimestepSchedule`) and `timestepsasap.py`
(`TimestepsASAPSchedule`) share the residual-graph frontier loop; the mirror
passes `alaptimestep.py` / `timestepsalap.py` wrap them. -/

/-- Modelled from the spec: `DAGCircuit.leading_op_nodes` — the frontier of
the residual dependency graph, i.e. "operations with no unscheduled
predecessor" (spec glossary).  With wire-induced dependencies a node is
leading iff none of its qubits occurs in an earlier node of the residual
program order.  `seen` accumulates the qubits of earlier nodes. -/
def leadingAux : List Nat → List RNode → List RNode
  | _, [] => []
  | seen, n :: rest =>
    if n.qargs.any (fun q => seen.contains q) then leadingAux (seen ++ n.qargs) rest
    else n :: leadingAux (seen ++ n.qargs) rest

/-- The frontier of a residual operation list. -/
def leadingOpNodes (l : List RNode) : List RNode := leadingAux [] l

/-- Stable insertion keeping larger durations first — the order produced by
Python's stable `sorted(nodes, key=lambda x: x.op.duration, reverse=True)`. -/
def insertDurDesc (n : RNode) : List RNode → List RNode
  | [] => [n]
  | m :: rest =>
    if m.op.duration < n.op.duration then n :: m :: rest else m :: insertDurDesc n rest

/-- `sorted(nodes, key=lambda x: x.op.duration, reverse=True)`. -/
def sortByDurDesc (l : List RNode) : List RNode := l.foldr insertDurDesc []

/-- Stable insertion keeping smaller durations first — the order produced by
Python's stable `sorted(nodes, key=lambda x: x.op.duration)`. -/
def insertDurAsc (n : RNode) : List RNode → List RNode
  | [] => [n]
  | m :: rest =>
    if n.op.duration < m.op.duration then n :: m :: rest else m :: insertDurAsc n rest

/-- `sorted(nodes, key=lambda x: x.op.duration)`. -/
def sortByDurAsc (l : List RNode) : List RNode := l.foldr insertDurAsc []

/-- Dominant-duration choice of `ASAPTimestepSchedule.run` (asaptimestep.py
lines 76-84): the duration of the first node of the frontier sorted by
descending duration restricted to non-`Delay` nodes; if every frontier node
is a `Delay`, the duration of the first node sorted ascending (the least
dominant delay).  `none` models the `IndexError` of `sorted([])[0]` on an
empty frontier. -/
def asapDominantDuration (fnodes : List RNode) : Option Int :=
  let noDelays := fnodes.filter (fun n => ¬ n.op.kind = OpKind.delay)
  if ¬ noDelays.isEmpty then
    (sortByDurDesc noDelays).head?.map (fun n => n.op.duration)
  else
    (sortByDurAsc (fnodes.filter (fun n => n.op.kind = OpKind.delay))).head?.map
      (fun n => n.op.duration)

/-- Dominant-duration choice of `TimestepsASAPSchedule.run` (timestepsasap.py
lines 77-80): the whole frontier — delays included — is sorted by descending
duration and the first node is dominant. -/
def timestepsDominantDuration (fnodes : List RNode) : Option Int :=
  (sortByDurDesc fnodes).head?.map (fun n => n.op.duration)

/-- State of the inner admission loop (`while news:`) shared by
asaptimestep.py lines 88-101 and timestepsasap.py lines 84-97. -/
structure AdmitState where
  residual : List RNode
  timelimit : TimeTable
  dones : List RNode
  frontierIds : List Nat
  qLast : Option Nat
  deriving DecidableEq, Repr

/-- The `while news:` loop: extend `dones` with `news`; for each admitted
node decrement `timelimit[q]` for each of its qubits (the loop variable `q`
leaks and keeps its last value) and remove the node from the residual graph;
recompute the frontier; the next `news` are the frontier nodes whose duration
fits `timelimit[q]` for the leaked `q` — the per-qubit budget of the *last
processed qubit*, exactly as in the source.  The fuel argument only bounds
the recursion; each pass with nonempty `news` removes admitted nodes from the
residual list. -/
def admitLoop : Nat → AdmitState → List RNode → AdmitState
  | 0, st, _ => st
  | _ + 1, st, [] => st
  | fuel + 1, st, news =>
    let stepped := news.foldl
      (fun (acc : TimeTable × Option Nat) n =>
        n.qargs.foldl
          (fun (a : TimeTable × Option Nat) q =>
            (ttSet a.1 q (tlook a.1 q - n.op.duration), some q))
          acc)
      (st.timelimit, st.qLast)
    let residual := st.residual.filter (fun m => news.all (fun n => ¬ n.id = m.id))
    let frontier := leadingOpNodes residual
    let news2 :=
      match stepped.2 with
      | some q => frontier.filter (fun n => n.op.duration ≤ tlook stepped.1 q)
      | none => []
    admitLoop fuel
      { residual := residual
        timelimit := stepped.1
        dones := st.dones ++ news
        frontierIds := frontier.map (fun n => n.id)
        qLast := stepped.2 }
      news2

/-- State threaded through the bounded outer loop
(`for k in range(1, max_n_iteration + 1)`). -/
structure TsState where
  residual : List RNode
  frontierIds : List Nat
  newOps : List (Op × List Nat)
  circuitDuration : Int
  done : Bool
  deriving DecidableEq, Repr

/-- The frontier nodes, looked up from the residual graph so that in-place
delay mutations are visible (Python's `frontier` list holds references). -/
def frontierNodes (st : TsState) : List RNode :=
  st.frontierIds.filterMap (fun i => st.residual.find? (fun n => n.id = i))

/-- One iteration of the outer loop of `ASAPTimestepSchedule.run`
(asaptimestep.py lines 70-129): break on an empty frontier; pick the dominant
duration; run the admission loop with fresh per-qubit budgets; truncate
(`n.op.duration -= left_duration`) frontier delays with unspent budget on
their qubit; emit the admitted nodes, idle-padding delays and a `Timestep`
marker spanning all qubits; accumulate the duration; raise `TranspilerError`
when `k` reaches the iteration bound. -/
def asapTimestepIter (numQubits maxN : Nat) (st : TsState) (k : Nat) :
    Except PyErr TsState :=
  if st.done then Except.ok st
  else if st.frontierIds.isEmpty then Except.ok { st with done := true }
  else
    let fnodes := frontierNodes st
    match asapDominantDuration fnodes with
    | none => Except.error PyErr.indexErr
    | some tsDur =>
      let tl0 : TimeTable := (List.range numQubits).map (fun q => (q, tsDur))
      let news0 := fnodes.filter (fun n => n.op.duration ≤ tsDur)
      let ast := admitLoop (st.residual.length + 1)
        ⟨st.residual, tl0, [], st.frontierIds, none⟩ news0
      match ast.residual.mapM
        (fun n =>
          if ast.frontierIds.contains n.id ∧ n.op.kind = OpKind.delay then
            match n.qargs with
            | [q] =>
              let left := tlook ast.timelimit q
              if 0 < left then
                Except.ok { n with op := n.op.setDuration (n.op.duration - left) }
              else Except.ok n
            | _ => (Except.error PyErr.assertionErr : Except PyErr RNode)
          else Except.ok n) with
      | Except.error e => Except.error e
      | Except.ok residual2 =>
        let ops1 := st.newOps ++ ast.dones.map (fun n => (n.op, n.qargs))
        let ops2 := ops1 ++ ast.timelimit.filterMap
          (fun p => if 0 < p.2 then some (mkDelay p.2, [p.1]) else none)
        let ops3 := ops2 ++ [(mkTimestep tsDur, List.range numQubits)]
        if k = maxN then
          Except.error
            (PyErr.transpilerErr "Unknown error: #iteration reached max_n_iteration")
        else
          Except.ok
            { residual := residual2
              frontierIds := ast.frontierIds
              newOps := ops3
              circuitDuration := st.circuitDuration + tsDur
              done := false }

/-- One iteration of the outer loop of `TimestepsASAPSchedule.run`
(timestepsasap.py lines 73-118): the dominant duration is the maximum over
the *whole* frontier, every frontier node is admitted as the initial `news`,
and there is no delay-splitting step (`# TODO: split deley in frontier`). -/
def timestepsIter (numQubits maxN : Nat) (st : TsState) (k : Nat) :
    Except PyErr TsState :=
  if st.done then Except.ok st
  else if st.frontierIds.isEmpty then Except.ok { st with done := true }
  else
    let fnodes := frontierNodes st
    match timestepsDominantDuration fnodes with
    | none => Except.error PyErr.indexErr
    | some tsDur =>
      let tl0 : TimeTable := (List.range numQubits).map (fun q => (q, tsDur))
      let ast := admitLoop (st.residual.length + 1)
        ⟨st.residual, tl0, [], st.frontierIds, none⟩ fnodes
      let ops1 := st.newOps ++ ast.dones.map (fun n => (n.op, n.qargs))
      let ops2 := ops1 ++ ast.timelimit.filterMap
        (fun p => if 0 < p.2 then some (mkDelay p.2, [p.1]) else none)
      let ops3 := ops2 ++ [(mkTimestep tsDur, List.range numQubits)]
      if k = maxN then
        Except.error
          (PyErr.transpilerErr "Unknown error: #iteration reached max_n_iteration")
      else
        Except.ok
          { residual := ast.residual
            frontierIds := ast.frontierIds
            newOps := ops3
            circuitDuration := st.circuitDuration + tsDur
            done := false }

/-- The residual copy of the input DAG with all durations resolved up front
(asaptimestep.py lines 63-66): node identities are the original positions. -/
def durateOps (resolve : Op → List Nat → Int) (ops : List (Op × List Nat)) : List RNode :=
  ops.enum.map (fun p => ⟨p.1, p.2.1.setDuration (resolve p.2.1 p.2.2), p.2.2⟩)

/-- `ASAPTimestepSchedule.run` (asaptimestep.py lines 39-133).  The loop is
bounded by `max_n_iteration = dag.size() * dag.num_qubits()`. -/
def ASAPTimestepSchedule.run (resolve : Op → List Nat → Int) (dag : DAGCircuit) :
    Except PyErr DAGCircuit :=
  if ¬ dag.isPhysical then
    Except.error (PyErr.transpilerErr "ASAPTimestepSchedule runs on physical circuits only")
  else
    let nq := dag.numQubits
    let residual0 := durateOps resolve dag.ops
    let frontier0 := (leadingOpNodes residual0).map (fun n => n.id)
    let maxN := dag.ops.length * nq
    match (List.range' 1 maxN).foldlM (asapTimestepIter nq maxN)
      ⟨residual0, frontier0, [], 0, false⟩ with
    | Except.error e => Except.error e
    | Except.ok st =>
      Except.ok
        { qregs := dag.qregs
          name := dag.name
          duration := DagDuration.ticks st.circuitDuration
          ops := st.newOps }

/-- `TimestepsASAPSchedule.run` (timestepsasap.py lines 39-122).  The loop is
bounded by `max_n_iteration = dag.size()` only. -/
def TimestepsASAPSchedule.run (resolve : Op → List Nat → Int) (dag : DAGCircuit) :
    Except PyErr DAGCircuit :=
  if ¬ dag.isPhysical then
    Except.error (PyErr.transpilerErr "TimestepsASAPSchedule runs on physical circuits only")
  else
    let nq := dag.numQubits
    let residual0 := durateOps resolve dag.ops
    let frontier0 := (leadingOpNodes residual0).map (fun n => n.id)
    let maxN := dag.ops.length
    match (List.range' 1 maxN).foldlM (timestepsIter nq maxN)
      ⟨residual0, frontier0, [], 0, false⟩ with
    | Except.error e => Except.error e
    | Except.ok st =>
      Except.ok
        { qregs := dag.qregs
          name := dag.name
          duration := DagDuration.ticks st.circuitDuration
          ops := st.newOps }

/-- The timestep-shifting sweep shared by `ALAPTimestepSchedule.run`
(alaptimestep.py lines 62-73) and `TimestepsALAPSchedule.run`
(timestepsalap.py lines 62-72): every `Timestep` marker is held back and
re-emitted after the following non-`Timestep` block; the held marker is
flushed at the end. -/
def shiftTimesteps : Option (Op × List Nat) → List (Op × List Nat) → List (Op × List Nat)
  | some p, [] => [p]
  | none, [] => []
  | prev, n :: rest =>
    if n.1.kind = OpKind.timestep then
      match prev with
      | some p => p :: shiftTimesteps (some n) rest
      | none => shiftTimesteps (some n) rest
    else n :: shiftTimesteps prev rest

/-- `ALAPTimestepSchedule.run` (alaptimestep.py lines 37-77): mirror, run the
ASAP timestep pass, mirror back, shift the markers — and then assign
`new_dag.duration = tmp_dag.name`, storing the *name string* of the mirrored
schedule into the duration attribute. -/
def ALAPTimestepSchedule.run (resolve : Op → List Nat → Int) (dag : DAGCircuit) :
    Except PyErr DAGCircuit :=
  if ¬ dag.isPhysical then
    Except.error (PyErr.transpilerErr "ALAPTimestepSchedule runs on physical circuits only")
  else
    match ASAPTimestepSchedule.run resolve dag.mirror with
    | Except.error e => Except.error e
    | Except.ok sched =>
      let tmp := sched.mirror
      Except.ok
        { qregs := dag.qregs
          name := dag.name
          duration := DagDuration.text tmp.name
          ops := shiftTimesteps none tmp.ops }

/-- `TimestepsALAPSchedule.run` (timestepsalap.py lines 37-76): same mirror
wrapper around `TimestepsASAPSchedule.run`, with the same
`new_dag.duration = tmp_dag.name` assignment. -/
def TimestepsALAPSchedule.run (resolve : Op → List Nat → Int) (dag : DAGCircuit) :
    Except PyErr DAGCircuit :=
  if ¬ dag.isPhysical then
    Except.error (PyErr.transpilerErr "TimestepsALAPSchedule runs on physical circuits only")
  else
    match TimestepsASAPSchedule.run resolve dag.mirror with
    | Except.error e => Except.error e
    | Except.ok sched =>
      let tmp := sched.mirror
      Except.ok
        { qregs := dag.qregs
          name := dag.name
          duration := DagDuration.text tmp.name
          ops := shiftTimesteps none tmp.ops }

/-- The lengths (stored `params[0]`) of the `Timestep` markers of a schedule,
in emission order. -/
def timestepLengths (ops : List (Op × List Nat)) : List Int :=
  ops.filterMap (fun p => if p.1.kind = OpKind.timestep then some p.1.tsLength else none)

/-! ## `qiskit/compiler/sequence.py` (the Sequencer) -/

/-- Modelled from the spec: a pulse `Schedule` built from `(start, child)`
pairs (spec section 4.6, the "absolute-time flat instruction list"); only the
start tick and the child duration matter here. -/
structure PulseSched where
  timed : List (Int × Int)
  name : String
  deriving DecidableEq, Repr

/-- Modelled from the spec: the total duration of a pulse schedule — the
largest `start + duration` over its children (0 when empty). -/
def PulseSched.duration (s : PulseSched) : Int :=
  (s.timed.map (fun p => p.1 + p.2)).foldl (fun a b => max a b) 0

/-- The consistency cross-check loop of `_sequence` (sequence.py lines
98-100): any qubit of the instruction whose available time differs from
`start_time` raises `Exception("Bug in scheduling pass.")`. -/
def checkAvail : List Nat → Int → TimeTable → Except PyErr TimeTable
  | [], _, t => Except.ok t
  | q :: qs, start, t =>
    let g := ttGet t q
    if ¬ g.1 = start then Except.error PyErr.bugInScheduler
    else checkAvail qs start g.2

/-- The loop `for q in qubits: qubit_time_available[q] += inst.duration`. -/
def bumpAvail : List Nat → Int → TimeTable → TimeTable
  | [], _, t => t
  | q :: qs, d, t =>
    let g := ttGet t q
    bumpAvail qs d (ttSet g.2 q (g.1 + d))

/-- The start-time trace of `_sequence` (sequence.py lines 93-104): walk the
instruction list; the start of each instruction is
`qubit_time_available[qubits[0]]` (an `IndexError` on an empty qubit list);
the cross-check and the timeline bump follow. -/
def traceGo : TimeTable → List Int → List (Op × List Nat) →
    Except PyErr (List Int)
  | _, starts, [] => Except.ok starts
  | table, starts, (inst, qubits) :: rest =>
    match qubits with
    | [] => Except.error PyErr.indexErr
    | q0 :: _ =>
      let g0 := ttGet table q0
      match checkAvail qubits g0.1 g0.2 with
      | Except.error e => Except.error e
      | Except.ok t1 => traceGo (bumpAvail qubits inst.duration t1) (starts ++ [g0.1]) rest

/-- The fresh per-resource walk of `_sequence` over a scheduled circuit. -/
def traceStartTimes (ops : List (Op × List Nat)) : Except PyErr (List Int) :=
  traceGo [] [] ops

/-- `_sequence(scheduled_circuit, schedule_config)` (sequence.py lines
78-113).  `implDur` abstracts the externally supplied implementation map
(`translate_gates_to_pulse_defs`, modelled from the spec: operation name +
resource tuple → lower-level timed sub-program, of which only the duration is
kept); `Barrier` lowerings are dropped.  The final
`assert sched.duration == scheduled_circuit.duration` is the post-hoc
duration cross-check; `pad` (modelled from the spec) fills idle channels with
delays and keeps the total duration. -/
def sequencerOne (implDur : Op → List Nat → Int) (c : DAGCircuit) :
    Except PyErr PulseSched :=
  match traceStartTimes c.ops with
  | Except.error e => Except.error e
  | Except.ok starts =>
    let timed := (starts.zip c.ops).filterMap
      (fun p => if p.2.1.name = "barrier" then none else some (p.1, implDur p.2.1 p.2.2))
    let sched : PulseSched := ⟨timed, c.name⟩
    if ¬ c.duration = DagDuration.ticks sched.duration then Except.error PyErr.assertionErr
    else Except.ok sched

/-- The list comprehension
`[_sequence(circuit, schedule_config) for circuit in circuits]`: the first
raised exception propagates. -/
def sequencerMap (implDur : Op → List Nat → Int) :
    List DAGCircuit → Except PyErr (List PulseSched)
  | [] => Except.ok []
  | c :: rest =>
    match sequencerOne implDur c with
    | Except.error e => Except.error e
    | Except.ok s =>
      match sequencerMap implDur rest with
      | Except.error e => Except.error e
      | Except.ok ss => Except.ok (s :: ss)

/-- `sequence(scheduled_circuits, ...)` shape logic (sequence.py lines
73-75): `circuits = scheduled_circuits if isinstance(scheduled_circuits,
list) else [scheduled_circuits]`, then
`return schedules[0] if len(schedules) == 1 else schedules`. -/
def sequenceEntry (implDur : Op → List Nat → Int)
    (input : DAGCircuit ⊕ List DAGCircuit) :
    Except PyErr (PulseSched ⊕ List PulseSched) :=
  let circuits :=
    match input with
    | Sum.inl c => [c]
    | Sum.inr l => l
  match sequencerMap implDur circuits with
  | Except.error e => Except.error e
  | Except.ok scheds =>
    match scheds with
    | [s] => Except.ok (Sum.inl s)
    | _ => Except.ok (Sum.inr scheds)

/-! ## Spec-worded reference definitions

Definitions written from the spec's sentences (not from the source), used to
state refinement-style claims against the embedded code. -/

/-- `DurationMapper.get` in the common case: the operation already carries a
resolved integer duration (asap.py lines 39-40 return `node.op.duration`
unchanged when it is a set integer). -/
def resolveStored : Op → List Nat → Int := fun op _ => op.duration

/-- Spec section 4.2 wording: "`start = max(timeline[r] for r in
resources)`" over the per-resource next-free-tick timeline. -/
def specStart (timeline : TimeTable) (resources : List Nat) : Option Int :=
  listMax? (resources.map (tlook timeline))

/-- Spec section 4.2 wording: "for every resource lagging behind `start`,
emit an explicit Delay covering the gap". -/
def specLagDelays (timeline : TimeTable) (resources : List Nat) (start : Int) :
    List (Op × List Nat) :=
  resources.filterMap (fun r =>
    if tlook timeline r < start then
      some (mkDelay (start - tlook timeline r), [r])
    else none)

/-- Spec section 4.6 wording, the "fresh per-resource walk": the next-free
tick of resource `q` after a prefix of scheduled operations is the total
duration of the prefix operations touching `q`. -/
def qubitBusy : List (Op × List Nat) → Nat → Int
  | [], _ => 0
  | p :: rest, q => (if q ∈ p.2 then p.1.duration else 0) + qubitBusy rest q

/-- All resources of an operation are free at the same tick after the
prefix `pre` ("the operation's resources are all free at the same tick"). -/
def opAligned (pre : List (Op × List Nat)) (p : Op × List Nat) : Bool :=
  p.2.all (fun q => qubitBusy pre q == qubitBusy pre (p.2.headD 0))

/-- Every operation of the list is aligned with the scheduler-recorded
timing of the preceding prefix. -/
def schedAligned : List (Op × List Nat) → List (Op × List Nat) → Bool
  | _, [] => true
  | pre, p :: rest => opAligned pre p && schedAligned (pre ++ [p]) rest

/-! ## Association-table lemmas -/

theorem ttFind_append (t s : TimeTable) (q : Nat) :
    ttFind (t ++ s) q =
      match ttFind t q with
      | some v => some v
      | none => ttFind s q := by
  induction t with
  | nil => rfl
  | cons p rest ih =>
    obtain ⟨k, v⟩ := p
    by_cases h : k = q
    · simp [ttFind, h]
    · simp only [List.cons_append, ttFind, if_neg h]
      exact ih

theorem ttGet_fst (t : TimeTable) (q : Nat) : (ttGet t q).1 = tlook t q := by
  unfold ttGet tlook
  cases h : ttFind t q <;> simp [h]

theorem tlook_ttGet_snd (t : TimeTable) (q r : Nat) :
    tlook (ttGet t q).2 r = tlook t r := by
  unfold ttGet
  cases h : ttFind t q with
  | some v => rfl
  | none =>
    show tlook (t ++ [(q, 0)]) r = tlook t r
    unfold tlook
    rw [ttFind_append]
    cases h2 : ttFind t r with
    | some w => rfl
    | none =>
      by_cases hq : q = r <;> simp [ttFind, hq]

theorem tlook_ttSet (t : TimeTable) (q : Nat) (v : Int) (r : Nat) :
    tlook (ttSet t q v) r = if r = q then v else tlook t r := by
  induction t with
  | nil =>
    by_cases h : r = q
    · simp [ttSet, tlook, ttFind, h]
    · have h2 : ¬ q = r := fun hh => h hh.symm
      simp [ttSet, tlook, ttFind, h, h2]
  | cons p rest ih =>
    obtain ⟨k, w⟩ := p
    by_cases hk : k = q
    · subst hk
      by_cases hr : r = k
      · simp [ttSet, tlook, ttFind, hr]
      · have h2 : ¬ k = r := fun hh => hr hh.symm
        simp [ttSet, tlook, ttFind, hr, h2]
    · by_cases hr : r = k
      · subst hr
        have h2 : ¬ r = q := fun hh => hk (hh ▸ rfl)
        simp [ttSet, tlook, ttFind, hk, h2]
      · have h2 : ¬ k = r := fun hh => hr hh.symm
        simp only [ttSet, if_neg hk, tlook, ttFind, if_neg h2]
        exact ih

/-- Reading the timeline through the `defaultdict` does not change any
looked-up value. -/
theorem tlook_readAvail_snd (qs : List Nat) (t : TimeTable) :
    tlook (readAvail qs t).2 = tlook t := by
  induction qs generalizing t with
  | nil => rfl
  | cons q rest ih =>
    show tlook (readAvail rest (ttGet t q).2).2 = tlook t
    rw [ih]
    exact funext (fun r => tlook_ttGet_snd t q r)

/-- The generator values are the looked-up timeline values, in order. -/
theorem readAvail_fst (qs : List Nat) (t : TimeTable) :
    (readAvail qs t).1 = qs.map (tlook t) := by
  induction qs generalizing t with
  | nil => rfl
  | cons q rest ih =>
    show (ttGet t q).1 :: (readAvail rest (ttGet t q).2).1 = tlook t q :: rest.map (tlook t)
    rw [ttGet_fst, ih, funext (fun r => tlook_ttGet_snd t q r)]

/-- `specLagDelays` only depends on the timeline through its lookups. -/
theorem specLagDelays_congr (t1 t2 : TimeTable) (qs : List Nat) (u : Int)
    (h : tlook t1 = tlook t2) : specLagDelays t1 qs u = specLagDelays t2 qs u := by
  unfold specLagDelays
  rw [h]

/-- `pad_with_delays` appends exactly one delay covering the gap of every
lagging qubit, in qubit order, and does not change the timeline values. -/
theorem padWithDelays_spec (qs : List Nat) (u : Int) (st : AsapState) :
    (padWithDelays qs u st).newOps = st.newOps ++ specLagDelays st.timeAvail qs u ∧
    tlook (padWithDelays qs u st).timeAvail = tlook st.timeAvail := by
  induction qs generalizing st with
  | nil => simp [padWithDelays, specLagDelays]
  | cons q rest ih =>
    have hg2 : tlook (ttGet st.timeAvail q).2 = tlook st.timeAvail :=
      funext (fun r => tlook_ttGet_snd st.timeAvail q r)
    by_cases h : (ttGet st.timeAvail q).1 < u
    · have hlag : tlook st.timeAvail q < u := by rw [← ttGet_fst]; exact h
      have step := ih { newOps := st.newOps ++ [(mkDelay (u - (ttGet st.timeAvail q).1), [q])],
                        timeAvail := (ttGet st.timeAvail q).2 }
      constructor
      · show (padWithDelays (q :: rest) u st).newOps = _
        rw [show padWithDelays (q :: rest) u st =
              padWithDelays rest u
                { newOps := st.newOps ++ [(mkDelay (u - (ttGet st.timeAvail q).1), [q])],
                  timeAvail := (ttGet st.timeAvail q).2 } from by
            simp [padWithDelays, h]]
        rw [step.1]
        show st.newOps ++ [(mkDelay (u - (ttGet st.timeAvail q).1), [q])] ++
            specLagDelays (ttGet st.timeAvail q).2 rest u = _
        rw [specLagDelays_congr _ _ rest u hg2, ttGet_fst]
        show st.newOps ++ [(mkDelay (u - tlook st.timeAvail q), [q])] ++
            specLagDelays st.timeAvail rest u =
          st.newOps ++ specLagDelays st.timeAvail (q :: rest) u
        rw [show specLagDelays st.timeAvail (q :: rest) u =
              (mkDelay (u - tlook st.timeAvail q), [q]) :: specLagDelays st.timeAvail rest u from by
            simp [specLagDelays, hlag]]
        simp
      · show tlook (padWithDelays (q :: rest) u st).timeAvail = _
        rw [show padWithDelays (q :: rest) u st =
              padWithDelays rest u
                { newOps := st.newOps ++ [(mkDelay (u - (ttGet st.timeAvail q).1), [q])],
                  timeAvail := (ttGet st.timeAvail q).2 } from by
            simp [padWithDelays, h]]
        rw [step.2]
        exact hg2
    · have hlag : ¬ tlook st.timeAvail q < u := by rw [← ttGet_fst]; exact h
      have step := ih { st with timeAvail := (ttGet st.timeAvail q).2 }
      have hrw : padWithDelays (q :: rest) u st =
          padWithDelays rest u { st with timeAvail := (ttGet st.timeAvail q).2 } := by
        simp [padWithDelays, h]
      constructor
      · rw [hrw, step.1]
        show st.newOps ++ specLagDelays (ttGet st.timeAvail q).2 rest u = _
        rw [specLagDelays_congr _ _ rest u hg2]
        rw [show specLagDelays st.timeAvail (q :: rest) u =
              specLagDelays st.timeAvail rest u from by simp [specLagDelays, hlag]]
      · rw [hrw, step.2]
        exact hg2

/-- Advancing all touched qubits to `stop` sets exactly those lookups. -/
theorem tlook_advanceAll (qs : List Nat) (stop : Int) (t : TimeTable) (r : Nat) :
    tlook (advanceAll qs stop t) r = if r ∈ qs then stop else tlook t r := by
  induction qs generalizing t with
  | nil => simp [advanceAll]
  | cons q rest ih =>
    show tlook (advanceAll rest stop (ttSet t q stop)) r = _
    rw [ih]
    by_cases hr : r ∈ rest
    · simp [hr, List.mem_cons]
    · by_cases hq : r = q
      · simp [hr, hq, tlook_ttSet, List.mem_cons]
      · simp [hr, hq, tlook_ttSet, List.mem_cons]

/-! ## Sequencer-walk lemmas -/

/-- When the cross-check loop succeeds, every checked qubit was available
exactly at `start`, and the table lookups are unchanged. -/
theorem checkAvail_ok (qs : List Nat) (start : Int) (t t1 : TimeTable)
    (h : checkAvail qs start t = Except.ok t1) :
    (∀ q ∈ qs, tlook t q = start) ∧ tlook t1 = tlook t := by
  induction qs generalizing t with
  | nil =>
    refine ⟨by simp, ?_⟩
    cases h
    rfl
  | cons q rest ih =>
    by_cases hq : (ttGet t q).1 = start
    · have hrec : checkAvail (q :: rest) start t = checkAvail rest start (ttGet t q).2 := by
        simp [checkAvail, hq]
      rw [hrec] at h
      have step := ih (ttGet t q).2 h
      have hg2 : tlook (ttGet t q).2 = tlook t :=
        funext (fun r => tlook_ttGet_snd t q r)
      refine ⟨?_, by rw [step.2, hg2]⟩
      intro x hx
      rcases List.mem_cons.mp hx with hx0 | hx1
      · subst hx0
        rw [← ttGet_fst]
        exact hq
      · rw [← hg2]
        exact step.1 x hx1
    · exfalso
      have : checkAvail (q :: rest) start t = Except.error PyErr.bugInScheduler := by
        simp [checkAvail, hq]
      rw [this] at h
      cases h

/-- The cross-check loop only ever raises `Bug in scheduling pass.`. -/
theorem checkAvail_error (qs : List Nat) (start : Int) (t : TimeTable) (e : PyErr)
    (h : checkAvail qs start t = Except.error e) : e = PyErr.bugInScheduler := by
  induction qs generalizing t with
  | nil => cases h
  | cons q rest ih =>
    by_cases hq : (ttGet t q).1 = start
    · have hrec : checkAvail (q :: rest) start t = checkAvail rest start (ttGet t q).2 := by
        simp [checkAvail, hq]
      rw [hrec] at h
      exact ih (ttGet t q).2 h
    · have : checkAvail (q :: rest) start t = Except.error PyErr.bugInScheduler := by
        simp [checkAvail, hq]
      rw [this] at h
      cases h
      rfl

/-- Bumping distinct qubits by `d` adds `d` to exactly their lookups. -/
theorem tlook_bumpAvail (qs : List Nat) (d : Int) (t : TimeTable) (h : qs.Nodup) (r : Nat) :
    tlook (bumpAvail qs d t) r = if r ∈ qs then tlook t r + d else tlook t r := by
  induction qs generalizing t with
  | nil => simp [bumpAvail]
  | cons q rest ih =>
    have hq : q ∉ rest := (List.nodup_cons.mp h).1
    have hrest : rest.Nodup := (List.nodup_cons.mp h).2
    show tlook (bumpAvail rest d (ttSet (ttGet t q).2 q ((ttGet t q).1 + d))) r = _
    rw [ih _ hrest]
    have hset : ∀ x, tlook (ttSet (ttGet t q).2 q ((ttGet t q).1 + d)) x =
        if x = q then tlook t q + d else tlook t x := by
      intro x
      rw [tlook_ttSet, ttGet_fst, funext (fun y => tlook_ttGet_snd t q y)]
    by_cases hr : r ∈ rest
    · have hrq : ¬ r = q := fun hh => hq (hh ▸ hr)
      simp [hr, hset, hrq, List.mem_cons]
    · by_cases hrq : r = q
      · subst hrq
        simp [hr, hset, List.mem_cons]
      · simp [hr, hset, hrq, List.mem_cons]

/-- Appending one operation to the prefix adds its duration to the busy time
of exactly its qubits. -/
theorem qubitBusy_append (pre : List (Op × List Nat)) (p : Op × List Nat) (q : Nat) :
    qubitBusy (pre ++ [p]) q =
      qubitBusy pre q + (if q ∈ p.2 then p.1.duration else 0) := by
  induction pre with
  | nil => simp [qubitBusy]
  | cons x rest ih =>
    show (if q ∈ x.2 then x.1.duration else 0) + qubitBusy (rest ++ [p]) q = _
    rw [ih]
    show _ = (if q ∈ x.2 then x.1.duration else 0) + qubitBusy rest q + _
    ring

/-- If the walk of `_sequence` succeeds and the table agrees with the busy
times of an already-walked prefix, then every remaining operation is aligned:
all its qubits are busy for exactly the same span as its first qubit. -/
theorem traceGo_ok_aligned (data : List (Op × List Nat)) :
    ∀ (pre : List (Op × List Nat)) (t : TimeTable) (starts res : List Int),
    (∀ q, tlook t q = qubitBusy pre q) →
    (∀ p ∈ data, p.2.Nodup) →
    traceGo t starts data = Except.ok res →
    schedAligned pre data = true := by
  induction data with
  | nil =>
    intro pre t starts res hinv hnd hok
    rfl
  | cons p rest ih =>
    intro pre t starts res hinv hnd hok
    obtain ⟨inst, qubits⟩ := p
    cases hq : qubits with
    | nil =>
      exfalso
      rw [hq] at hok
      simp [traceGo] at hok
    | cons q0 qs =>
      subst hq
      cases hchk : checkAvail (q0 :: qs) (ttGet t q0).1 (ttGet t q0).2 with
      | error e =>
        exfalso
        simp [traceGo, hchk] at hok
      | ok t1 =>
        have hstep : traceGo t starts ((inst, q0 :: qs) :: rest) =
            traceGo (bumpAvail (q0 :: qs) inst.duration t1) (starts ++ [(ttGet t q0).1]) rest := by
          simp [traceGo, hchk]
        rw [hstep] at hok
        have hchecked := checkAvail_ok _ _ _ _ hchk
        have hg2 : tlook (ttGet t q0).2 = tlook t :=
          funext (fun r => tlook_ttGet_snd t q0 r)
        have hvals : ∀ q ∈ q0 :: qs, tlook t q = tlook t q0 := by
          intro x hx
          have := hchecked.1 x hx
          rw [hg2] at this
          rw [this, ← ttGet_fst]
        have haligned : opAligned pre (inst, q0 :: qs) = true := by
          unfold opAligned
          rw [List.all_eq_true]
          intro x hx
          have h1 := hvals x hx
          rw [hinv x, hinv q0] at h1
          simp only [List.headD_cons]
          exact beq_iff_eq.mpr h1
        have hnd0 : (q0 :: qs).Nodup := hnd (inst, q0 :: qs) (List.mem_cons_self _ _)
        have hinv2 : ∀ q, tlook (bumpAvail (q0 :: qs) inst.duration t1) q =
            qubitBusy (pre ++ [(inst, q0 :: qs)]) q := by
          intro x
          rw [tlook_bumpAvail _ _ _ hnd0, qubitBusy_append]
          have ht1 : tlook t1 x = qubitBusy pre x := by
            rw [hchecked.2, hg2, hinv]
          by_cases hx : x ∈ q0 :: qs
          · simp [hx, ht1]
          · simp [hx, ht1]
        have hrest := ih (pre ++ [(inst, q0 :: qs)]) _ _ _ hinv2
          (fun p hp => hnd p (List.mem_cons_of_mem _ hp)) hok
        show (opAligned pre (inst, q0 :: qs) && schedAligned (pre ++ [(inst, q0 :: qs)]) rest) = true
        rw [haligned, hrest]
        rfl

/-- On operation lists with nonempty qubit tuples the walk either succeeds
or raises exactly the scheduling-bug exception. -/
theorem traceGo_total (data : List (Op × List Nat)) :
    ∀ (t : TimeTable) (starts : List Int),
    (∀ p ∈ data, ¬ p.2 = []) →
    traceGo t starts data = Except.error PyErr.bugInScheduler ∨
      ∃ res, traceGo t starts data = Except.ok res := by
  induction data with
  | nil =>
    intro t starts hne
    exact Or.inr ⟨starts, rfl⟩
  | cons p rest ih =>
    intro t starts hne
    obtain ⟨inst, qubits⟩ := p
    cases hq : qubits with
    | nil =>
      exfalso
      exact hne (inst, qubits) (List.mem_cons_self _ _) hq
    | cons q0 qs =>
      subst hq
      cases hchk : checkAvail (q0 :: qs) (ttGet t q0).1 (ttGet t q0).2 with
      | error e =>
        left
        have he := checkAvail_error _ _ _ _ hchk
        subst he
        simp [traceGo, hchk]
      | ok t1 =>
        have hstep : traceGo t starts ((inst, q0 :: qs) :: rest) =
            traceGo (bumpAvail (q0 :: qs) inst.duration t1) (starts ++ [(ttGet t q0).1]) rest := by
          simp [traceGo, hchk]
        rw [hstep]
        exact ih _ _ (fun p hp => hne p (List.mem_cons_of_mem _ hp))

/-! ## Dominant-selection lemmas -/

/-- The duration of the head of a node list. -/
def headDur? (l : List RNode) : Option Int := l.head?.map (fun n => n.op.duration)

theorem headDur_insertDesc (n : RNode) (s : List RNode) :
    headDur? (insertDurDesc n s) =
      some
        (match headDur? s with
         | none => n.op.duration
         | some d => max n.op.duration d) := by
  cases s with
  | nil => rfl
  | cons m rest =>
    by_cases h : m.op.duration < n.op.duration
    · simp only [insertDurDesc, if_pos h, headDur?, List.head?, Option.map]
      rw [max_eq_left h.le]
    · simp only [insertDurDesc, if_neg h, headDur?, List.head?, Option.map]
      rw [max_eq_right (not_lt.mp h)]

theorem headDur_insertAsc (n : RNode) (s : List RNode) :
    headDur? (insertDurAsc n s) =
      some
        (match headDur? s with
         | none => n.op.duration
         | some d => min n.op.duration d) := by
  cases s with
  | nil => rfl
  | cons m rest =>
    by_cases h : n.op.duration < m.op.duration
    · simp only [insertDurAsc, if_pos h, headDur?, List.head?, Option.map]
      rw [min_eq_left h.le]
    · simp only [insertDurAsc, if_neg h, headDur?, List.head?, Option.map]
      rw [min_eq_right (not_lt.mp h)]

/-- The first element of the stable descending sort by duration carries the
maximum duration of the list. -/
theorem headDur_sortDesc (l : List RNode) :
    headDur? (sortByDurDesc l) = listMax? (l.map (fun n => n.op.duration)) := by
  induction l with
  | nil => rfl
  | cons x xs ih =>
    show headDur? (insertDurDesc x (sortByDurDesc xs)) = _
    rw [headDur_insertDesc, ih]
    rfl

/-- The first element of the stable ascending sort by duration carries the
minimum duration of the list. -/
theorem headDur_sortAsc (l : List RNode) :
    headDur? (sortByDurAsc l) = listMin? (l.map (fun n => n.op.duration)) := by
  induction l with
  | nil => rfl
  | cons x xs ih =>
    show headDur? (insertDurAsc x (sortByDurAsc xs)) = _
    rw [headDur_insertAsc, ih]
    rfl

/-! ## Concrete programs and outputs used by the claims -/

/-- Scenario 1 of the spec: operations A (duration 3) and B (duration 5) on
disjoint resources, no precedence. -/
def scenario1Program : DAGCircuit :=
  ⟨[("q", 2)], "c", DagDuration.pynone, [(mkGate "a" 3, [0]), (mkGate "b" 5, [1])]⟩

/-- The ASAP schedule of scenario 1: A at 0, B at 0, a trailing Delay(2) on
A's resource, total duration 5. -/
def scenario1Result : DAGCircuit :=
  ⟨[("q", 2)], "c_asap", DagDuration.ticks 5,
   [(mkGate "a" 3, [0]), (mkGate "b" 5, [1]), (mkDelay 2, [0])]⟩

/-- A two-qubit physical program whose qubit 1 is touched by no operation. -/
def idleQubitProgram : DAGCircuit :=
  ⟨[("q", 2)], "c", DagDuration.pynone, [(mkGate "a" 3, [0])]⟩

/-- The ASAP schedule of `idleQubitProgram`: qubit 1 receives nothing. -/
def idleQubitResult : DAGCircuit :=
  ⟨[("q", 2)], "c_asap", DagDuration.ticks 3, [(mkGate "a" 3, [0])]⟩

/-- A Delay-only physical program: Delay(2) on qubit 0, Delay(5) on
qubit 1. -/
def delayOnlyProgram : DAGCircuit :=
  ⟨[("q", 2)], "c", DagDuration.pynone, [(mkDelay 2, [0]), (mkDelay 5, [1])]⟩

/-- A well-formed physical program with a single unit-duration gate on a
one-qubit register. -/
def singleOpProgram : DAGCircuit :=
  ⟨[("q", 1)], "c", DagDuration.pynone, [(mkGate "a" 1, [0])]⟩

/-- A single gate of duration 3 on a two-qubit register, circuit name
`circ`. -/
def alapProbe : DAGCircuit :=
  ⟨[("q", 2)], "circ", DagDuration.pynone, [(mkGate "a" 3, [0])]⟩

/-- The output of `ALAPTimestepSchedule` on `alapProbe`: the duration
attribute holds the *name string* of the mirrored schedule. -/
def alapProbeResult : DAGCircuit :=
  ⟨[("q", 2)], "circ", DagDuration.text "circ",
   [(mkDelay 3, [1]), (mkGate "a" 3, [0]), (mkTimestep 3, [0, 1])]⟩

/-- Six operations on three qubits (all input durations positive): gate a(5)
on q0, gate b(3) then Delay(1) then gate e(3) on q1, gate c(5) on q2, gate
g(2) on q0 after a.  The admission loop's leaked budget variable admits e(3)
into a timestep of dominant duration 2. -/
def staleBudgetProgram : DAGCircuit :=
  ⟨[("q", 3)], "c", DagDuration.pynone,
   [(mkGate "a" 5, [0]), (mkGate "b" 3, [1]), (mkGate "c" 5, [2]),
    (mkGate "g" 2, [0]), (mkDelay 1, [1]), (mkGate "e" 3, [1])]⟩

/-- The output of `ASAPTimestepSchedule` on `staleBudgetProgram`: the second
timestep has length 2 but contains the admitted gate e of duration 3 (and a
Delay of duration -1 produced by the splitting step). -/
def staleBudgetResult : DAGCircuit :=
  ⟨[("q", 3)], "c", DagDuration.ticks 7,
   [(mkGate "a" 5, [0]), (mkGate "b" 3, [1]), (mkGate "c" 5, [2]),
    (mkDelay 2, [1]), (mkTimestep 5, [0, 1, 2]),
    (mkGate "g" 2, [0]), (mkDelay (-1), [1]), (mkGate "e" 3, [1]),
    (mkDelay 2, [2]), (mkTimestep 2, [0, 1, 2])]⟩

/-- A scheduled circuit whose second operation's qubits are not free at the
same tick (qubit 0 busy until 3, qubit 1 free at 0). -/
def misalignedProbe : DAGCircuit :=
  ⟨[("q", 2)], "b", DagDuration.pynone, [(mkGate "a" 3, [0]), (mkGate "b" 2, [0, 1])]⟩

/-- A consistently scheduled one-qubit circuit of duration 2. -/
def seqProbe : DAGCircuit :=
  ⟨[("q", 1)], "g", DagDuration.ticks 2, [(mkGate "a" 2, [0])]⟩

/-- The pulse schedule produced from `seqProbe`. -/
def seqProbeSched : PulseSched := ⟨[(0, 2)], "g"⟩

/-- The list comprehension preserves the number of circuits. -/
theorem sequencerMap_length (implDur : Op → List Nat → Int) (l : List DAGCircuit)
    (ss : List PulseSched) (h : sequencerMap implDur l = Except.ok ss) :
    ss.length = l.length := by
  induction l generalizing ss with
  | nil =>
    cases h
    rfl
  | cons c rest ih =>
    cases hc : sequencerOne implDur c with
    | error e =>
      exfalso
      simp [sequencerMap, hc] at h
    | ok s =>
      cases hrest : sequencerMap implDur rest with
      | error e =>
        exfalso
        simp [sequencerMap, hc, hrest] at h
      | ok ss2 =>
        have : sequencerMap implDur (c :: rest) = Except.ok (s :: ss2) := by
          simp [sequencerMap, hc, hrest]
        rw [this] at h
        injection h with h2
        subst h2
        show ss2.length + 1 = rest.length + 1
        rw [ih ss2 hrest]

/-! ## Claim theorems -/

/-- C10: running the forward (ASAP) scheduling pass on a physical program
with zero operations raises an error — `max()` is taken over the empty key
set of `qubit_time_available` — rather than returning an empty schedule of
duration 0. -/
theorem claim_C10_empty_program_value_error (n : Nat) (nm : String) (dur : DagDuration)
    (resolve : Op → List Nat → Int) :
    ASAPSchedule.run resolve ⟨[("q", n)], nm, dur, []⟩ =
      Except.error (PyErr.valueErr "max() arg is an empty sequence") := rfl

/-- C7: a duration-table lookup of a `(name, resources)` pair with no exact
entry fails with an error naming both the operation name and its resources
(the `KeyError` on the `(name, tuple(qubits))` key — the table has no
per-name default mechanism, so no default can exist), while the
synchronization-only operations `barrier` and `timestep` always resolve to
0 ticks. -/
theorem claim_C7_missing_duration (d : InstructionDurations) (name : String)
    (qubits : List Nat) :
    (¬ name = "barrier" → ¬ name = "timestep" →
      dicFind d.durationDic name qubits = none →
      InstructionDurations.get d name qubits = Except.error (PyErr.keyErr name qubits)) ∧
    InstructionDurations.get d "barrier" qubits = Except.ok 0 ∧
    InstructionDurations.get d "timestep" qubits = Except.ok 0 := by
  refine ⟨?_, ?_, ?_⟩
  · intro h1 h2 h3
    unfold InstructionDurations.get
    rw [if_neg (by intro h; rcases h with h | h; exact h1 h; exact h2 h), h3]
  · unfold InstructionDurations.get
    rw [if_pos (Or.inl rfl)]
  · unfold InstructionDurations.get
    rw [if_pos (Or.inr rfl)]

/-- C7 witness: looking up the unregistered gate `cx` on qubits `[0, 1]` in
an empty table fails naming both fields. -/
theorem claim_C7_witness :
    (¬ "cx" = "barrier") ∧ (¬ "cx" = "timestep") ∧
    dicFind (InstructionDurations.mk [] none).durationDic "cx" [0, 1] = none ∧
    InstructionDurations.get ⟨[], none⟩ "cx" [0, 1] =
      Except.error (PyErr.keyErr "cx" [0, 1]) :=
  ⟨by decide, by decide, rfl,
   (claim_C7_missing_duration ⟨[], none⟩ "cx" [0, 1]).1 (by decide) (by decide) rfl⟩

/-- C1 (code bug): the ASAP scheduler pads only the qubits recorded in
`qubit_time_available` (its `working_qubits`), so a register qubit touched by
no operation is covered by no operation interval and no Delay padding at
all: on `idleQubitProgram` the schedule has duration 3 but emits no
instruction whatsoever on qubit 1, leaving `[0, 3)` uncovered there. -/
theorem claim_C1_idle_resource_not_covered :
    ASAPSchedule.run resolveStored idleQubitProgram = Except.ok idleQubitResult ∧
    idleQubitResult.duration = DagDuration.ticks 3 ∧
    idleQubitResult.ops.all (fun p => ! p.2.contains 1) = true := by
  refine ⟨rfl, rfl, by decide⟩

/-- C4 (code bug): on a well-formed one-qubit, one-operation physical
program — a finite DAG with resolved durations — both quantized schedulers
finish all scheduling work in the final permitted iteration and then raise
the fatal internal-consistency `TranspilerError` anyway, because the guard
`k == max_n_iteration` fires even when the schedule is complete (and
`TimestepsASAPSchedule` bounds the loop by `dag.size()` alone, not
`|Operations| * |Resources|`). -/
theorem claim_C4_iteration_bound_spurious_raise :
    ASAPTimestepSchedule.run resolveStored singleOpProgram =
      Except.error (PyErr.transpilerErr "Unknown error: #iteration reached max_n_iteration") ∧
    TimestepsASAPSchedule.run resolveStored singleOpProgram =
      Except.error (PyErr.transpilerErr "Unknown error: #iteration reached max_n_iteration") := by
  refine ⟨rfl, rfl⟩

/-- C5 (code bug): the mirror-derived ALAP timestep pass assigns
`new_dag.duration = tmp_dag.name`, storing a *string* into the duration
attribute, so the sum of the emitted Timestep lengths (3) cannot equal
`Schedule.duration`; the direct quantized ASAP pass on the same program does
satisfy the conservation property (duration 3 = sum of lengths [3]). -/
theorem claim_C5_alap_duration_is_name_string :
    ALAPTimestepSchedule.run resolveStored alapProbe = Except.ok alapProbeResult ∧
    timestepLengths alapProbeResult.ops = [3] ∧
    alapProbeResult.duration = DagDuration.text "circ" ∧
    (¬ alapProbeResult.duration = DagDuration.ticks 3) ∧
    (ASAPTimestepSchedule.run resolveStored alapProbe).map
        (fun d2 => (timestepLengths d2.ops, d2.duration)) =
      Except.ok ([3], DagDuration.ticks 3) := by
  refine ⟨rfl, by decide, rfl, by decide, rfl⟩

/-- C6 (code bug): on `staleBudgetProgram` (all input durations positive)
the quantized ASAP scheduler emits a second Timestep marker of length 2
while the operations it synchronizes include the admitted gate e of duration
3 — the marker's length is smaller than the maximum duration it
synchronizes, because the admission test reuses the leaked loop variable `q`
and the split step had pushed a Delay's duration to -1. -/
theorem claim_C6_marker_shorter_than_synchronized_op :
    ASAPTimestepSchedule.run resolveStored staleBudgetProgram =
      Except.ok staleBudgetResult ∧
    timestepLengths staleBudgetResult.ops = [5, 2] ∧
    staleBudgetResult.ops.get? 7 = some (mkGate "e" 3, [1]) ∧
    ¬ (mkGate "e" 3).duration ≤ (mkTimestep 2).tsLength := by
  refine ⟨rfl, by decide, by decide, by decide⟩

/-- C3 counterexample: on the same Delay-only physical program the two
quantized passes pick different dominant durations — `ASAPTimestepSchedule`
starts with the minimum Delay duration (first timestep length 2) while
`TimestepsASAPSchedule` starts with the maximum (first timestep length 5) —
so the claim that both passes apply the minimum-Delay policy consistently is
false. -/
theorem claim_C3_counterexample :
    (ASAPTimestepSchedule.run resolveStored delayOnlyProgram).map
        (fun d => timestepLengths d.ops) = Except.ok [2, 3] ∧
    (TimestepsASAPSchedule.run resolveStored delayOnlyProgram).map
        (fun d => timestepLengths d.ops) = Except.ok [5] ∧
    ¬ ([2, 3] : List Int).head? = ([5] : List Int).head? := by
  refine ⟨rfl, rfl, by decide⟩

/-- C3 (amended): in every iteration, `ASAPTimestepSchedule` picks as
dominant duration the maximum duration among non-Delay frontier operations
and, on a Delay-only frontier, the minimum Delay duration; but
`TimestepsASAPSchedule` picks the maximum duration over the whole frontier,
Delays included — the two quantized passes do not share one policy. -/
theorem claim_C3_dominant_policies (fnodes : List RNode) :
    asapDominantDuration fnodes =
      (if (fnodes.filter (fun n => ¬ n.op.kind = OpKind.delay)).isEmpty then
        listMin?
          ((fnodes.filter (fun n => n.op.kind = OpKind.delay)).map (fun n => n.op.duration))
      else
        listMax?
          ((fnodes.filter (fun n => ¬ n.op.kind = OpKind.delay)).map
            (fun n => n.op.duration))) ∧
    timestepsDominantDuration fnodes = listMax? (fnodes.map (fun n => n.op.duration)) := by
  constructor
  · unfold asapDominantDuration
    by_cases h : (fnodes.filter (fun n => ¬ n.op.kind = OpKind.delay)).isEmpty
    · rw [if_neg (by simpa using h), if_pos h]
      exact headDur_sortAsc _
    · rw [if_pos (by simpa using h), if_neg h]
      exact headDur_sortDesc _
  · exact headDur_sortDesc fnodes

/-- C2: each step of the forward (ASAP) scheduler assigns
`start = max(timeline[r] for r in resources)` (the spec-worded `specStart`),
emits exactly one Delay covering the gap on every lagging resource
(`specLagDelays`), appends the operation with its resolved duration, and
advances every touched resource's timeline to `start + duration`; on
Scenario 1 (A of duration 3 and B of duration 5 on disjoint resources) it
yields start(A)=0, start(B)=0, total duration 5 and a trailing Delay(2) on
A's resource. -/
theorem claim_C2_forward_scheduler :
    (∀ (resolve : Op → List Nat → Int) (st : AsapState) (op : Op) (qs : List Nat)
        (start : Int) (st' : AsapState),
        specStart st.timeAvail qs = some start →
        asapStep resolve st (op, qs) = Except.ok st' →
        st'.newOps = st.newOps ++ specLagDelays st.timeAvail qs start ++
          [(op.setDuration (resolve op qs), qs)] ∧
        (∀ q, tlook st'.timeAvail q =
          if q ∈ qs then start + resolve op qs else tlook st.timeAvail q)) ∧
    ASAPSchedule.run resolveStored scenario1Program = Except.ok scenario1Result ∧
    traceStartTimes scenario1Result.ops = Except.ok [0, 0, 3] ∧
    scenario1Result.ops.getLast? = some (mkDelay 2, [0]) := by
  refine ⟨?_, rfl, rfl, rfl⟩
  intro resolve st op qs start st' hspec hrun
  have hmax : listMax? (readAvail qs st.timeAvail).1 = some start := by
    rw [readAvail_fst]
    exact hspec
  simp only [asapStep, hmax] at hrun
  injection hrun with hst
  subst hst
  have hpad := padWithDelays_spec qs start { st with timeAvail := (readAvail qs st.timeAvail).2 }
  have hcong : specLagDelays (readAvail qs st.timeAvail).2 qs start =
      specLagDelays st.timeAvail qs start :=
    specLagDelays_congr _ _ _ _ (tlook_readAvail_snd qs st.timeAvail)
  constructor
  · show (padWithDelays qs start _).newOps ++ _ = _
    rw [hpad.1]
    show st.newOps ++ specLagDelays (readAvail qs st.timeAvail).2 qs start ++ _ = _
    rw [hcong]
  · intro q
    show tlook (advanceAll qs (start + resolve op qs) (padWithDelays qs start _).timeAvail) q = _
    rw [tlook_advanceAll]
    by_cases hq : q ∈ qs
    · rw [if_pos hq, if_pos hq]
    · rw [if_neg hq, if_neg hq]
      rw [congrFun hpad.2 q]
      exact congrFun (tlook_readAvail_snd qs st.timeAvail) q

/-- C2 witness: the step rule applied at the concrete state with timeline
`q0 at 1, q1 at 4` and a 2-tick two-qubit gate: the start is 4, a Delay(3)
pads qubit 0, and qubit 0's timeline advances to 6. -/
theorem claim_C2_witness :
    specStart [(0, 1), (1, 4)] [0, 1] = some 4 ∧
    asapStep resolveStored ⟨[], [(0, 1), (1, 4)]⟩ (mkGate "x" 2, [0, 1]) =
      Except.ok ⟨[(mkDelay 3, [0]), (mkGate "x" 2, [0, 1])], [(0, 6), (1, 6)]⟩ ∧
    ([(mkDelay 3, [0]), (mkGate "x" 2, [0, 1])] : List (Op × List Nat)) =
      [] ++ specLagDelays [(0, 1), (1, 4)] [0, 1] 4 ++
        [((mkGate "x" 2).setDuration (resolveStored (mkGate "x" 2) [0, 1]), [0, 1])] ∧
    tlook [(0, 6), (1, 6)] 0 = 4 + resolveStored (mkGate "x" 2) [0, 1] := by
  refine ⟨rfl, rfl, ?_, ?_⟩
  · exact (claim_C2_forward_scheduler.1 resolveStored ⟨[], [(0, 1), (1, 4)]⟩ (mkGate "x" 2)
      [0, 1] 4 ⟨[(mkDelay 3, [0]), (mkGate "x" 2, [0, 1])], [(0, 6), (1, 6)]⟩ rfl rfl).1
  · have h := (claim_C2_forward_scheduler.1 resolveStored ⟨[], [(0, 1), (1, 4)]⟩ (mkGate "x" 2)
      [0, 1] 4 ⟨[(mkDelay 3, [0]), (mkGate "x" 2, [0, 1])], [(0, 6), (1, 6)]⟩ rfl rfl).2 0
    simpa using h

/-- C8: the Sequencer recomputes every operation's start tick by a fresh
per-resource walk; if some operation's resources are not all free at the
same tick (the spec-worded `schedAligned` predicate over per-resource busy
times fails) it raises exactly the fatal `Bug in scheduling pass.`
condition, and whenever it succeeds the produced flat schedule's total
duration equals the scheduled circuit's `duration`. -/
theorem claim_C8_sequencer_crosscheck (implDur : Op → List Nat → Int) (c : DAGCircuit)
    (h : ∀ p ∈ c.ops, ¬ p.2 = [] ∧ p.2.Nodup) :
    (schedAligned [] c.ops = false →
      sequencerOne implDur c = Except.error PyErr.bugInScheduler) ∧
    (∀ s, sequencerOne implDur c = Except.ok s →
      c.duration = DagDuration.ticks s.duration) := by
  constructor
  · intro hmis
    cases traceGo_total c.ops [] [] (fun p hp => (h p hp).1) with
    | inl herr =>
      have herr2 : traceStartTimes c.ops = Except.error PyErr.bugInScheduler := herr
      simp [sequencerOne, herr2]
    | inr hok =>
      obtain ⟨res, hres⟩ := hok
      exfalso
      have hal := traceGo_ok_aligned c.ops [] [] [] res (fun q => rfl)
        (fun p hp => (h p hp).2) hres
      rw [hal] at hmis
      cases hmis
  · intro s hs
    cases htr : traceStartTimes c.ops with
    | error e =>
      exfalso
      simp [sequencerOne, htr] at hs
    | ok starts =>
      simp only [sequencerOne, htr] at hs
      split at hs
      · cases hs
      · next hcond =>
        injection hs with h2
        subst h2
        exact not_not.mp hcond

/-- C8 witness: the walk raises the scheduling-bug condition on a circuit
whose second gate's qubits disagree (busy 3 vs 0), and on a consistent
circuit of duration 2 it succeeds with a flat schedule of the same
duration. -/
theorem claim_C8_witness :
    schedAligned [] misalignedProbe.ops = false ∧
    sequencerOne resolveStored misalignedProbe = Except.error PyErr.bugInScheduler ∧
    sequencerOne resolveStored seqProbe = Except.ok seqProbeSched ∧
    seqProbe.duration = DagDuration.ticks seqProbeSched.duration := by
  refine ⟨by decide, ?_, rfl, ?_⟩
  · exact (claim_C8_sequencer_crosscheck resolveStored misalignedProbe (by decide)).1 (by decide)
  · exact (claim_C8_sequencer_crosscheck resolveStored seqProbe (by decide)).2 seqProbeSched rfl

/-- C9 counterexample: passing the empty list to the `sequence` entry point
returns a list of the same length (the empty list) although the input does
not have two or more elements — the claim's "only when the input list has
two or more elements" fails at the empty list. -/
theorem claim_C9_counterexample :
    sequenceEntry resolveStored (Sum.inr []) = Except.ok (Sum.inr []) ∧
    ¬ 2 ≤ ([] : List DAGCircuit).length := by
  exact ⟨rfl, by decide⟩

/-- C9 (amended): a successful call with a list input returns a list of
schedules of the same length exactly when the input list does not have
exactly one element (in particular also for the empty list); a singleton
list returns the single schedule itself — the same shape as passing the
circuit directly. -/
theorem claim_C9_singleton_unwrap (implDur : Op → List Nat → Int)
    (l : List DAGCircuit) (res : PulseSched ⊕ List PulseSched)
    (hres : sequenceEntry implDur (Sum.inr l) = Except.ok res) :
    (¬ l.length = 1 → ∃ ss, res = Sum.inr ss ∧ ss.length = l.length) ∧
    (∀ c, l = [c] → ∃ s, res = Sum.inl s ∧
      sequenceEntry implDur (Sum.inl c) = Except.ok (Sum.inl s)) := by
  cases hm : sequencerMap implDur l with
  | error e =>
    exfalso
    simp [sequenceEntry, hm] at hres
  | ok scheds =>
    have hlen := sequencerMap_length implDur l scheds hm
    simp only [sequenceEntry, hm] at hres
    constructor
    · intro hne
      cases scheds with
      | nil =>
        injection hres with h2
        exact ⟨[], h2.symm, by rw [← hlen]⟩
      | cons s1 rest =>
        cases rest with
        | nil =>
          exfalso
          rw [← hlen] at hne
          exact hne rfl
        | cons s2 rest2 =>
          injection hres with h2
          exact ⟨s1 :: s2 :: rest2, h2.symm, by rw [← hlen]⟩
    · intro c hc
      subst hc
      cases scheds with
      | nil => cases hlen
      | cons s1 rest =>
        cases rest with
        | nil =>
          injection hres with h2
          refine ⟨s1, h2.symm, ?_⟩
          simp [sequenceEntry, hm]
        | cons s2 rest2 => cases hlen

/-- C9 witness: a two-element input returns a two-element list; a singleton
input returns the bare schedule, matching a direct single-circuit call. -/
theorem claim_C9_witness :
    sequenceEntry resolveStored (Sum.inr [seqProbe, seqProbe]) =
      Except.ok (Sum.inr [seqProbeSched, seqProbeSched]) ∧
    ([seqProbeSched, seqProbeSched] : List PulseSched).length =
      ([seqProbe, seqProbe] : List DAGCircuit).length ∧
    sequenceEntry resolveStored (Sum.inr [seqProbe]) = Except.ok (Sum.inl seqProbeSched) ∧
    sequenceEntry resolveStored (Sum.inl seqProbe) = Except.ok (Sum.inl seqProbeSched) := by
  refine ⟨rfl, ?_, rfl, ?_⟩
  · obtain ⟨ss, hss, hlen⟩ :=
      (claim_C9_singleton_unwrap resolveStored [seqProbe, seqProbe]
        (Sum.inr [seqProbeSched, seqProbeSched]) rfl).1 (by decide)
    injection hss with h2
    rw [h2]
    exact hlen
  · obtain ⟨s, hs, hcall⟩ :=
      (claim_C9_singleton_unwrap resolveStored [seqProbe]
        (Sum.inl seqProbeSched) rfl).2 seqProbe rfl
    injection hs with h2
    rw [h2]
    exact hcall

end QiskitSched
